import Mathlib

/-!
Shallow embedding of the hidden (fog-of-war) game mode from
`src/game/hidden.rs`, together with proofs about its visited-set
tracking, edge-knowledge resolution, render delegation and turn loop.

The grid index type and the maze resource are external collaborators of
the core (the `multid` crate and `crate::maze::Maze`); the spec declares
both as interfaces the core consumes.  The grid index is modelled
concretely from the spec (bounded row/column pair with boundary-checked
neighbor lookup); the maze is kept fully abstract as a record of the
operations the core calls on it, so every theorem below holds for every
maze implementation.
-/

namespace Samazing

/-- Cardinal directions, mirroring `crate::Direction`. -/
inductive Direction where
  | north
  | south
  | east
  | west
deriving DecidableEq, Repr

/-- Decoded input commands, mirroring `crate::movement::MazeEvent`.
The catch-all arm of the source match is the `other` constructor. -/
inductive MazeEvent where
  | moveN
  | moveS
  | moveE
  | moveW
  | quit
  | other
deriving DecidableEq, Repr

/-- Terminal outcomes of the game loop, mirroring `super::Outcome`. -/
inductive Outcome where
  | win
  | quit
deriving DecidableEq, Repr

/-- Modelled from the spec: the Grid Index of the external `multid`
crate (`BoundedIx2<N_ROWS, N_COLS>`): a bounds-checked (row, column)
pair over a fixed extent.  The spec requires the four neighbor lookups
to return either a valid in-bounds index or none at the boundary. -/
structure BoundedIx2 (nR nC : Nat) where
  row : Fin nR
  col : Fin nC
deriving DecidableEq, Repr

namespace BoundedIx2

variable {nR nC : Nat}

/-- Modelled from the spec: northern neighbor, none at the top boundary. -/
def north (ix : BoundedIx2 nR nC) : Option (BoundedIx2 nR nC) :=
  if h : 0 < ix.row.val then
    some ⟨⟨ix.row.val - 1, by have := ix.row.isLt; omega⟩, ix.col⟩
  else none

/-- Modelled from the spec: southern neighbor, none at the bottom boundary. -/
def south (ix : BoundedIx2 nR nC) : Option (BoundedIx2 nR nC) :=
  if h : ix.row.val + 1 < nR then some ⟨⟨ix.row.val + 1, h⟩, ix.col⟩ else none

/-- Modelled from the spec: eastern neighbor, none at the right boundary. -/
def east (ix : BoundedIx2 nR nC) : Option (BoundedIx2 nR nC) :=
  if h : ix.col.val + 1 < nC then some ⟨ix.row, ⟨ix.col.val + 1, h⟩⟩ else none

/-- Modelled from the spec: western neighbor, none at the left boundary. -/
def west (ix : BoundedIx2 nR nC) : Option (BoundedIx2 nR nC) :=
  if h : 0 < ix.col.val then
    some ⟨ix.row, ⟨ix.col.val - 1, by have := ix.col.isLt; omega⟩⟩
  else none

/-- Neighbor lookup indexed by direction (packaging of the four lookups). -/
def neighbor (ix : BoundedIx2 nR nC) : Direction → Option (BoundedIx2 nR nC)
  | Direction.north => ix.north
  | Direction.south => ix.south
  | Direction.east => ix.east
  | Direction.west => ix.west

end BoundedIx2

/-- Row-major enumeration of the whole grid, mirroring
`V2Indices::<N_ROWS, N_COLS>::new()` from the `multid` crate. -/
def allIxs (nR nC : Nat) : List (BoundedIx2 nR nC) :=
  (List.finRange nR).flatMap fun r => (List.finRange nC).map fun c => ⟨r, c⟩

/-- `BTreeSet::insert`: membership-preserving insertion into the visited
set, modelled on lists; inserting a present element returns the set
unchanged. -/
def insertIx {α : Type} [DecidableEq α] (x : α) (s : List α) : List α :=
  if x ∈ s then s else x :: s

/-- One branch condition of the edge-knowledge resolver: the neighbor
lookup result, mapped through a not-seen test, defaulting to true at the
boundary — `ix.north().map(|i| !state.seen.contains(&i)).unwrap_or(true)`
in the source. -/
def hiddenCond {nR nC : Nat} (seen : List (BoundedIx2 nR nC))
    (o : Option (BoundedIx2 nR nC)) : Bool :=
  (o.map fun i => decide (i ∉ seen)).getD true

/-- The edge-knowledge resolver from `HiddenGame::render`
(src/game/hidden.rs lines 91-103): for an unseen cell, a direction is
pushed onto the hidden list when its branch condition holds; push order
is north, south, east, west. -/
def hiddenDirs {nR nC : Nat} (seen : List (BoundedIx2 nR nC))
    (ix : BoundedIx2 nR nC) : List Direction :=
  (if hiddenCond seen ix.north then [Direction.north] else [])
  ++ (if hiddenCond seen ix.south then [Direction.south] else [])
  ++ (if hiddenCond seen ix.east then [Direction.east] else [])
  ++ (if hiddenCond seen ix.west then [Direction.west] else [])

/-- Marker glyphs printed by `HiddenGame::render`: the goal hint, the
won marker and the player marker. -/
inductive Glyph where
  | goalMark
  | wonMark
  | playerMark
deriving DecidableEq, Repr

/-- One drawing command issued by `HiddenGame::render` to the canvas.
In the source the screen coordinates of every command are a fixed affine
function of the grid index (room origin for the two room views, the
label position for prints), so each command records the grid index it
was computed from. -/
inductive DrawCmd (nR nC : Nat) (Room : Type) where
  | print (ix : BoundedIx2 nR nC) (g : Glyph)
  | room (ix : BoundedIx2 nR nC) (r : Room)
  | unseenRoom (ix : BoundedIx2 nR nC) (hidden : List Direction)
deriving DecidableEq, Repr

/-- Recognizer for glyph print commands. -/
def isPrintCmd {nR nC : Nat} {Room : Type} : DrawCmd nR nC Room → Bool
  | DrawCmd.print _ _ => true
  | DrawCmd.room _ _ => false
  | DrawCmd.unseenRoom _ _ => false

/-- The interface of the external maze resource (`crate::maze::Maze`)
that the hidden mode consumes: current position, goal position, room
lookup, four single-step movement operations and the completion
predicate.  `M` is the maze state, `Ix` the grid index type, `Room` the
per-cell room contents. -/
structure MazeModel (M Ix Room : Type) where
  current_ix : M → Ix
  goal : M → Ix
  rooms : M → Ix → Room
  move_north : M → M
  move_south : M → M
  move_east : M → M
  move_west : M → M
  is_done : M → Bool

/-- The per-cell body of `HiddenGame::render` (src/game/hidden.rs lines
72-109): first the unconditional goal hint print for the goal cell, then
either the full room view followed by the overlay marker chain (seen
cell) or the blank room view with the hidden-direction set (unseen
cell). -/
def renderCell {nR nC : Nat} {M Room : Type}
    (mm : MazeModel M (BoundedIx2 nR nC) Room) (maze : M)
    (seen : List (BoundedIx2 nR nC)) (ix : BoundedIx2 nR nC) :
    List (DrawCmd nR nC Room) :=
  (if ix = mm.goal maze then [DrawCmd.print ix Glyph.goalMark] else [])
  ++ (if ix ∈ seen then
      DrawCmd.room ix (mm.rooms maze ix) ::
        (if ix = mm.current_ix maze ∧ ix = mm.goal maze then
          [DrawCmd.print ix Glyph.wonMark]
        else if ix = mm.current_ix maze then
          [DrawCmd.print ix Glyph.playerMark]
        else if ix = mm.goal maze then
          [DrawCmd.print ix Glyph.goalMark]
        else [])
    else
      [DrawCmd.unseenRoom ix (hiddenDirs seen ix)])

/-- The full-board paint of `HiddenGame::render`: the per-cell body over
the row-major enumeration of the grid. -/
def render {nR nC : Nat} {M Room : Type}
    (mm : MazeModel M (BoundedIx2 nR nC) Room) (maze : M)
    (seen : List (BoundedIx2 nR nC)) : List (DrawCmd nR nC Room) :=
  (allIxs nR nC).flatMap (renderCell mm maze seen)

/-- Modelled from the spec: the overlay marker for a seen cell, chosen
by the precedence won (current and goal), player (current only), goal
(goal only), else none. -/
def overlayGlyph (isCurrent isGoal : Bool) : Option Glyph :=
  if isCurrent && isGoal then some Glyph.wonMark
  else if isCurrent then some Glyph.playerMark
  else if isGoal then some Glyph.goalMark
  else none

/-- Dispatch of one decoded command to the maze resource, mirroring the
match arms of the loop in `game` (src/game/hidden.rs lines 132-139):
the four movement commands issue the corresponding single-step call,
quit is handled before dispatch, and the catch-all does nothing. -/
def stepEvent {M Ix Room : Type} (mm : MazeModel M Ix Room) (e : MazeEvent)
    (maze : M) : M :=
  match e with
  | MazeEvent.moveN => mm.move_north maze
  | MazeEvent.moveS => mm.move_south maze
  | MazeEvent.moveE => mm.move_east maze
  | MazeEvent.moveW => mm.move_west maze
  | MazeEvent.quit => maze
  | MazeEvent.other => maze

/-- Effect of one read result on the maze: a decoded command is
dispatched, a failed read leaves the maze untouched (the loop aborts
there anyway). -/
def stepRead {M Ix Room : Type} (mm : MazeModel M Ix Room) (maze : M) :
    Except Unit MazeEvent → M
  | Except.ok e => stepEvent mm e maze
  | Except.error _ => maze

/-- The maze state after processing a prefix of read results. -/
def mazeAtR {M Ix Room : Type} (mm : MazeModel M Ix Room) :
    M → List (Except Unit MazeEvent) → M
  | maze, [] => maze
  | maze, r :: rest => mazeAtR mm (stepRead mm maze r) rest

/-- Whether a read-result lookup yielded a successfully decoded command
other than quit (the commands on which the loop keeps running). -/
def okNonQuitB : Option (Except Unit MazeEvent) → Bool
  | some (Except.ok e) => decide (e ≠ MazeEvent.quit)
  | some (Except.error _) => false
  | none => false

/-- The session is still active after `n` full iterations: every earlier
iteration drew successfully, found the completion predicate false, and
read a successfully decoded command other than quit. -/
def activeUpTo {M Ix Room : Type} (mm : MazeModel M Ix Room)
    (draws : Nat → Bool) (k : Nat) (maze : M)
    (reads : List (Except Unit MazeEvent)) (n : Nat) : Prop :=
  ∀ m, m < n →
    (draws (k + m) = true
      ∧ mm.is_done (mazeAtR mm maze (reads.take m)) = false
      ∧ okNonQuitB reads[m]? = true)

/-- The turn loop `game` from src/game/hidden.rs lines 116-141.  Each
iteration: insert the current position into the visited set, draw (the
`draws` stream gives each draw attempt's success; on failure the error
propagates), check the completion predicate (returning the win outcome),
then block for one read result (`reads`; an exhausted list means the
loop is blocked with no outcome, a failed read propagates the error),
returning the quit outcome on a quit command and otherwise dispatching
the command and looping.  The returned list is the trace of rendered
snapshots (maze state and visited set at each successful draw). -/
def game {M Ix Room : Type} [DecidableEq Ix] (mm : MazeModel M Ix Room)
    (draws : Nat → Bool) :
    Nat → M → List Ix → List (Except Unit MazeEvent) →
      List (M × List Ix) × Option (Except Unit Outcome)
  | k, maze, seen, reads =>
    let seen2 := insertIx (mm.current_ix maze) seen
    if draws k = false then ([], some (Except.error ()))
    else if mm.is_done maze then ([(maze, seen2)], some (Except.ok Outcome.win))
    else
      match reads with
      | [] => ([(maze, seen2)], none)
      | Except.error _ :: _ => ([(maze, seen2)], some (Except.error ()))
      | Except.ok e :: rest =>
        if e = MazeEvent.quit then
          ([(maze, seen2)], some (Except.ok Outcome.quit))
        else
          let next := game mm draws (k + 1) (stepEvent mm e maze) seen2 rest
          ((maze, seen2) :: next.1, next.2)

/-- Concrete 1 by 2 grid index (0, 0), used to evaluate the theorems on
a concrete instance. -/
def exIx0 : BoundedIx2 1 2 := ⟨0, 0⟩

/-- Concrete 1 by 2 grid index (0, 1). -/
def exIx1 : BoundedIx2 1 2 := ⟨0, 1⟩

/-- A concrete two-cell maze on the 1 by 2 grid: state 0 sits at (0,0),
any other state at the goal (0,1); moving east reaches the goal, moving
west returns to the start, vertical moves are blocked no-ops; the
completion predicate holds away from state 0. -/
def exModel : MazeModel Nat (BoundedIx2 1 2) Unit where
  current_ix := fun m => if m = 0 then exIx0 else exIx1
  goal := fun _ => exIx1
  rooms := fun _ _ => ()
  move_north := fun m => m
  move_south := fun m => m
  move_east := fun _ => 1
  move_west := fun _ => 0
  is_done := fun m => decide (m ≠ 0)

/-- The always-succeeding draw stream, for concrete evaluations. -/
def exDraws : Nat → Bool := fun _ => true

section HiddenDirs

variable {nR nC : Nat}

lemma mem_if_singleton (c : Prop) [Decidable c] (a b : Direction) :
    (a ∈ if c then [b] else []) ↔ (c ∧ a = b) := by
  split <;> simp_all

/-- The branch condition of `hiddenDirs`, rephrased as a proposition. -/
lemma hiddenCond_iff (seen : List (BoundedIx2 nR nC))
    (o : Option (BoundedIx2 nR nC)) :
    hiddenCond seen o = true ↔ (o = none ∨ ∃ j, o = some j ∧ j ∉ seen) := by
  cases o <;> simp [hiddenCond]

lemma mem_hiddenDirs_iff (seen : List (BoundedIx2 nR nC))
    (ix : BoundedIx2 nR nC) (d : Direction) :
    d ∈ hiddenDirs seen ix ↔
      (ix.neighbor d = none ∨ ∃ j, ix.neighbor d = some j ∧ j ∉ seen) := by
  cases d <;>
    simp only [hiddenDirs, List.mem_append, mem_if_singleton,
      BoundedIx2.neighbor] <;>
    simp [hiddenCond_iff]

lemma hiddenDirs_all_hidden (seen : List (BoundedIx2 nR nC))
    (ix : BoundedIx2 nR nC)
    (h : ∀ d, ix.neighbor d = none ∨ ∃ j, ix.neighbor d = some j ∧ j ∉ seen) :
    hiddenDirs seen ix =
      [Direction.north, Direction.south, Direction.east, Direction.west] := by
  have hN := (hiddenCond_iff seen ix.north).mpr (h Direction.north)
  have hS := (hiddenCond_iff seen ix.south).mpr (h Direction.south)
  have hE := (hiddenCond_iff seen ix.east).mpr (h Direction.east)
  have hW := (hiddenCond_iff seen ix.west).mpr (h Direction.west)
  simp [hiddenDirs, hN, hS, hE, hW]

/-- C1: for every cell `ix` and direction `d`, the edge-knowledge
resolver classifies `d` as hidden exactly when `ix` has no neighbor in
direction `d` or that neighbor is outside the visited set; in
particular, when all four neighbors are out of bounds or unseen the
hidden set is exactly the north, south, east, west list, and when
exactly one direction `D` has a seen neighbor the hidden set excludes
`D` and contains the other three directions. -/
theorem hiddenDirs_characterization {nR nC : Nat}
    (seen : List (BoundedIx2 nR nC)) (ix : BoundedIx2 nR nC) :
    (∀ d, d ∈ hiddenDirs seen ix ↔
      (ix.neighbor d = none ∨ ∃ j, ix.neighbor d = some j ∧ j ∉ seen))
    ∧ ((∀ d, ix.neighbor d = none ∨ ∃ j, ix.neighbor d = some j ∧ j ∉ seen) →
      hiddenDirs seen ix =
        [Direction.north, Direction.south, Direction.east, Direction.west])
    ∧ (∀ D j, ix.neighbor D = some j → j ∈ seen →
      (∀ d, d ≠ D → (ix.neighbor d = none ∨
        ∃ i, ix.neighbor d = some i ∧ i ∉ seen)) →
      D ∉ hiddenDirs seen ix ∧ ∀ d, d ≠ D → d ∈ hiddenDirs seen ix) := by
  refine ⟨mem_hiddenDirs_iff seen ix, hiddenDirs_all_hidden seen ix, ?_⟩
  intro D j hDj hjseen hrest
  constructor
  · intro hD
    rcases (mem_hiddenDirs_iff seen ix D).mp hD with hnone | ⟨i, hi, hins⟩
    · rw [hDj] at hnone
      exact Option.noConfusion hnone
    · rw [hDj] at hi
      injection hi with hji
      exact hins (hji ▸ hjseen)
  · intro d hd
    exact (mem_hiddenDirs_iff seen ix d).mpr (hrest d hd)

/-- Witness for C1: on a 1 by 2 grid with nothing seen, the cell (0,0)
has every direction hidden, in enumeration order. -/
theorem hiddenDirs_characterization_witness :
    hiddenDirs ([] : List (BoundedIx2 1 2)) exIx0 =
      [Direction.north, Direction.south, Direction.east, Direction.west] :=
  (hiddenDirs_characterization [] exIx0).2.1 (by
    intro d
    cases d
    · exact Or.inl (by decide)
    · exact Or.inl (by decide)
    · exact Or.inr ⟨exIx1, by decide, by decide⟩
    · exact Or.inl (by decide))

end HiddenDirs

section InsertIx

variable {α : Type} [DecidableEq α]

lemma mem_insertIx_iff (x y : α) (s : List α) :
    x ∈ insertIx y s ↔ (x = y ∨ x ∈ s) := by
  unfold insertIx
  split
  · rename_i h
    constructor
    · exact Or.inr
    · rintro (rfl | hxs)
      · exact h
      · exact hxs
  · exact List.mem_cons

lemma mem_insertIx_self (x : α) (s : List α) : x ∈ insertIx x s :=
  (mem_insertIx_iff x x s).mpr (Or.inl rfl)

lemma mem_insertIx_of_mem {x : α} (y : α) {s : List α} (h : x ∈ s) :
    x ∈ insertIx y s :=
  (mem_insertIx_iff x y s).mpr (Or.inr h)

/-- C9: marking a grid index seen is idempotent: inserting an index that
is already in the visited set returns the set unchanged (hence identical
membership for every index), and inserting twice equals inserting
once. -/
theorem insertIx_idempotent :
    ∀ (nR nC : Nat) (s : List (BoundedIx2 nR nC)) (x : BoundedIx2 nR nC),
      x ∈ s →
      (insertIx x s = s ∧ ∀ j, (j ∈ insertIx x s ↔ j ∈ s))
      ∧ insertIx x (insertIx x s) = insertIx x s := by
  intro nR nC s x hx
  have h1 : insertIx x s = s := by simp [insertIx, hx]
  exact ⟨⟨h1, fun j => by rw [h1]⟩, by rw [h1, h1]⟩

/-- Witness for C9: inserting (0,0), already present in the singleton
visited set, leaves the set unchanged. -/
theorem insertIx_idempotent_witness :
    exIx0 ∈ [exIx0] ∧ insertIx exIx0 [exIx0] = [exIx0] :=
  ⟨by decide, (insertIx_idempotent 1 2 [exIx0] exIx0 (by decide)).1.1⟩

end InsertIx

section RenderProofs

variable {nR nC : Nat} {M Room : Type}

/-- C3 counterexample: on the concrete 1 by 2 maze, the cell (0,1) is
the goal and is not in the (empty) visited set, yet the render emits a
blank/unseen room view for it in addition to the goal marker — the
claim that only the goal marker is drawn is false. -/
theorem renderCell_unseen_goal_counterexample :
    exIx1 = exModel.goal 0
    ∧ exIx1 ∉ ([] : List (BoundedIx2 1 2))
    ∧ DrawCmd.unseenRoom exIx1
        [Direction.north, Direction.south, Direction.east, Direction.west]
      ∈ renderCell exModel 0 [] exIx1
    ∧ renderCell exModel 0 [] exIx1 ≠ [DrawCmd.print exIx1 Glyph.goalMark] := by
  refine ⟨rfl, by decide, ?_, by decide⟩
  decide

/-- C3 amended: an unseen goal cell is drawn with the goal marker glyph
at its label position followed by the blank/unseen room view carrying
its hidden-direction set; no full room geometry is drawn for it. -/
theorem renderCell_unseen_goal (mm : MazeModel M (BoundedIx2 nR nC) Room)
    (maze : M) (seen : List (BoundedIx2 nR nC)) (ix : BoundedIx2 nR nC)
    (hg : ix = mm.goal maze) (hs : ix ∉ seen) :
    renderCell mm maze seen ix =
      [DrawCmd.print ix Glyph.goalMark,
        DrawCmd.unseenRoom ix (hiddenDirs seen ix)] := by
  simp [renderCell, if_pos hg, hs]

/-- Witness for C3: on the concrete 1 by 2 maze with nothing seen, the
unseen goal cell draws exactly the goal marker and then the blank view
with all four directions hidden. -/
theorem renderCell_unseen_goal_witness :
    renderCell exModel 0 [] exIx1 =
      [DrawCmd.print exIx1 Glyph.goalMark,
        DrawCmd.unseenRoom exIx1
          [Direction.north, Direction.south, Direction.east,
            Direction.west]] := by
  rw [renderCell_unseen_goal exModel 0 [] exIx1 rfl (by decide)]
  rfl

/-- C4 counterexample: on the concrete 1 by 2 maze, the cell (0,1) is in
the visited set, is the goal and is not the current position, yet its
render contains two glyph print commands (the unconditional goal hint
before the room geometry and the overlay after it) — the claim that no
cell receives more than one glyph print is false. -/
theorem renderCell_seen_counterexample :
    exIx1 ∈ [exIx1]
    ∧ exIx1 = exModel.goal 0
    ∧ exIx1 ≠ exModel.current_ix 0
    ∧ (renderCell exModel 0 [exIx1] exIx1).countP isPrintCmd = 2 := by
  refine ⟨by decide, rfl, by decide, ?_⟩
  decide

/-- C4 amended: for a seen cell the render emits the goal hint print
first when the cell is the goal, then the full room geometry, then the
overlay from the mutually exclusive precedence chain won (current and
goal), player (current only), goal (goal only), else nothing — so the
overlay is at most one print, but a seen goal cell receives two glyph
prints in total (hint plus overlay) at the same label position. -/
theorem renderCell_seen (mm : MazeModel M (BoundedIx2 nR nC) Room)
    (maze : M) (seen : List (BoundedIx2 nR nC)) (ix : BoundedIx2 nR nC)
    (hs : ix ∈ seen) :
    renderCell mm maze seen ix =
      (if ix = mm.goal maze then [DrawCmd.print ix Glyph.goalMark] else [])
        ++ DrawCmd.room ix (mm.rooms maze ix)
          :: ((overlayGlyph (decide (ix = mm.current_ix maze))
                (decide (ix = mm.goal maze))).toList.map (DrawCmd.print ix))
      ∧ (overlayGlyph (decide (ix = mm.current_ix maze))
          (decide (ix = mm.goal maze))).toList.length ≤ 1
      ∧ (renderCell mm maze seen ix).countP isPrintCmd =
          (if ix = mm.goal maze then 1 else 0)
            + (if ix = mm.current_ix maze ∨ ix = mm.goal maze then 1 else 0) := by
  by_cases hc : ix = mm.current_ix maze
  · by_cases hg : ix = mm.goal maze
    · simp [renderCell, overlayGlyph, hs, ← hc, ← hg, isPrintCmd,
        List.countP_cons]
    · simp [renderCell, overlayGlyph, hs, ← hc, hg, isPrintCmd,
        List.countP_cons]
  · by_cases hg : ix = mm.goal maze
    · simp [renderCell, overlayGlyph, hs, hc, ← hg, isPrintCmd,
        List.countP_cons]
    · simp [renderCell, overlayGlyph, hs, hc, hg, isPrintCmd,
        List.countP_cons]

/-- Witness for C4: the seen goal cell (0,1), not current, renders as
goal hint, room geometry, goal overlay — two prints in total. -/
theorem renderCell_seen_witness :
    renderCell exModel 0 [exIx1] exIx1 =
      [DrawCmd.print exIx1 Glyph.goalMark, DrawCmd.room exIx1 (),
        DrawCmd.print exIx1 Glyph.goalMark]
    ∧ (renderCell exModel 0 [exIx1] exIx1).countP isPrintCmd = 2 := by
  have h := renderCell_seen exModel 0 [exIx1] exIx1 (by decide)
  refine ⟨?_, ?_⟩
  · rw [h.1]
    rfl
  · rw [h.2.2]
    rfl

end RenderProofs

section AllIxs

variable {nR nC : Nat} {M Room : Type}

lemma mem_allIxs (ix : BoundedIx2 nR nC) : ix ∈ allIxs nR nC := by
  rcases ix with ⟨r, c⟩
  simp only [allIxs, List.mem_flatMap, List.mem_map]
  exact ⟨r, List.mem_finRange r, c, List.mem_finRange c, rfl⟩

/-- A seen cell contributes its full room geometry to the board render. -/
lemma room_mem_render (mm : MazeModel M (BoundedIx2 nR nC) Room) (maze : M)
    (seen : List (BoundedIx2 nR nC)) (ix : BoundedIx2 nR nC) (hs : ix ∈ seen) :
    DrawCmd.room ix (mm.rooms maze ix) ∈ render mm maze seen := by
  refine List.mem_flatMap.mpr ⟨ix, mem_allIxs ix, ?_⟩
  simp [renderCell, hs]

end AllIxs

section GameLoop

variable {M Ix Room : Type} [DecidableEq Ix]
variable (mm : MazeModel M Ix Room) (draws : Nat → Bool)

lemma game_drawFail (k : Nat) (maze : M) (seen : List Ix)
    (reads : List (Except Unit MazeEvent)) (h : draws k = false) :
    game mm draws k maze seen reads = ([], some (Except.error ())) := by
  unfold game
  simp [h]

lemma game_win (k : Nat) (maze : M) (seen : List Ix)
    (reads : List (Except Unit MazeEvent)) (h : draws k = true)
    (hdone : mm.is_done maze = true) :
    game mm draws k maze seen reads =
      ([(maze, insertIx (mm.current_ix maze) seen)],
        some (Except.ok Outcome.win)) := by
  unfold game
  simp [h, hdone]

lemma game_nil (k : Nat) (maze : M) (seen : List Ix) (h : draws k = true)
    (hdone : mm.is_done maze = false) :
    game mm draws k maze seen [] =
      ([(maze, insertIx (mm.current_ix maze) seen)], none) := by
  unfold game
  simp [h, hdone]

lemma game_readErr (k : Nat) (maze : M) (seen : List Ix) (u : Unit)
    (rest : List (Except Unit MazeEvent)) (h : draws k = true)
    (hdone : mm.is_done maze = false) :
    game mm draws k maze seen (Except.error u :: rest) =
      ([(maze, insertIx (mm.current_ix maze) seen)],
        some (Except.error ())) := by
  unfold game
  simp [h, hdone]

lemma game_quitCmd (k : Nat) (maze : M) (seen : List Ix)
    (rest : List (Except Unit MazeEvent)) (h : draws k = true)
    (hdone : mm.is_done maze = false) :
    game mm draws k maze seen (Except.ok MazeEvent.quit :: rest) =
      ([(maze, insertIx (mm.current_ix maze) seen)],
        some (Except.ok Outcome.quit)) := by
  unfold game
  simp [h, hdone]

lemma game_cont (k : Nat) (maze : M) (seen : List Ix) (e : MazeEvent)
    (rest : List (Except Unit MazeEvent)) (h : draws k = true)
    (hdone : mm.is_done maze = false) (he : e ≠ MazeEvent.quit) :
    game mm draws k maze seen (Except.ok e :: rest) =
      ((maze, insertIx (mm.current_ix maze) seen)
          :: (game mm draws (k + 1) (stepEvent mm e maze)
              (insertIx (mm.current_ix maze) seen) rest).1,
        (game mm draws (k + 1) (stepEvent mm e maze)
          (insertIx (mm.current_ix maze) seen) rest).2) := by
  conv_lhs => unfold game
  simp [h, hdone, he]

/-- Every rendered snapshot carries its own current position inside its
visited set: the loop inserts the current position before drawing. -/
lemma game_snap_current_mem (reads : List (Except Unit MazeEvent)) :
    ∀ (k : Nat) (maze : M) (seen : List Ix) (snap : M × List Ix),
      snap ∈ (game mm draws k maze seen reads).1 →
      mm.current_ix snap.1 ∈ snap.2 := by
  induction reads with
  | nil =>
    intro k maze seen snap h
    cases hd : draws k with
    | false =>
      rw [game_drawFail mm draws k maze seen [] hd] at h
      simp at h
    | true =>
      cases hdone : mm.is_done maze with
      | false =>
        rw [game_nil mm draws k maze seen hd hdone] at h
        simp only [List.mem_singleton] at h
        subst h
        exact mem_insertIx_self _ _
      | true =>
        rw [game_win mm draws k maze seen [] hd hdone] at h
        simp only [List.mem_singleton] at h
        subst h
        exact mem_insertIx_self _ _
  | cons r rest ih =>
    intro k maze seen snap h
    cases hd : draws k with
    | false =>
      rw [game_drawFail mm draws k maze seen _ hd] at h
      simp at h
    | true =>
      cases hdone : mm.is_done maze with
      | true =>
        rw [game_win mm draws k maze seen _ hd hdone] at h
        simp only [List.mem_singleton] at h
        subst h
        exact mem_insertIx_self _ _
      | false =>
        cases r with
        | error u =>
          rw [game_readErr mm draws k maze seen u rest hd hdone] at h
          simp only [List.mem_singleton] at h
          subst h
          exact mem_insertIx_self _ _
        | ok e =>
          by_cases he : e = MazeEvent.quit
          · subst he
            rw [game_quitCmd mm draws k maze seen rest hd hdone] at h
            simp only [List.mem_singleton] at h
            subst h
            exact mem_insertIx_self _ _
          · rw [game_cont mm draws k maze seen e rest hd hdone he] at h
            simp only [List.mem_cons] at h
            rcases h with rfl | h
            · exact mem_insertIx_self _ _
            · exact ih _ _ _ _ h

/-- Indices in the visited set at loop entry stay in the visited set of
every rendered snapshot. -/
lemma game_seen_subset (reads : List (Except Unit MazeEvent)) :
    ∀ (k : Nat) (maze : M) (seen : List Ix) (x : Ix), x ∈ seen →
      ∀ snap ∈ (game mm draws k maze seen reads).1, x ∈ snap.2 := by
  induction reads with
  | nil =>
    intro k maze seen x hx snap h
    cases hd : draws k with
    | false =>
      rw [game_drawFail mm draws k maze seen [] hd] at h
      simp at h
    | true =>
      cases hdone : mm.is_done maze with
      | false =>
        rw [game_nil mm draws k maze seen hd hdone] at h
        simp only [List.mem_singleton] at h
        subst h
        exact mem_insertIx_of_mem _ hx
      | true =>
        rw [game_win mm draws k maze seen [] hd hdone] at h
        simp only [List.mem_singleton] at h
        subst h
        exact mem_insertIx_of_mem _ hx
  | cons r rest ih =>
    intro k maze seen x hx snap h
    cases hd : draws k with
    | false =>
      rw [game_drawFail mm draws k maze seen _ hd] at h
      simp at h
    | true =>
      cases hdone : mm.is_done maze with
      | true =>
        rw [game_win mm draws k maze seen _ hd hdone] at h
        simp only [List.mem_singleton] at h
        subst h
        exact mem_insertIx_of_mem _ hx
      | false =>
        cases r with
        | error u =>
          rw [game_readErr mm draws k maze seen u rest hd hdone] at h
          simp only [List.mem_singleton] at h
          subst h
          exact mem_insertIx_of_mem _ hx
        | ok e =>
          by_cases he : e = MazeEvent.quit
          · subst he
            rw [game_quitCmd mm draws k maze seen rest hd hdone] at h
            simp only [List.mem_singleton] at h
            subst h
            exact mem_insertIx_of_mem _ hx
          · rw [game_cont mm draws k maze seen e rest hd hdone he] at h
            simp only [List.mem_cons] at h
            rcases h with rfl | h
            · exact mem_insertIx_of_mem _ hx
            · exact ih _ _ _ x (mem_insertIx_of_mem _ hx) snap h

/-- Growth of the visited set along the snapshot trace, by index. -/
lemma game_seen_mono_idx (reads : List (Except Unit MazeEvent)) :
    ∀ (k : Nat) (maze : M) (seen : List Ix) (n m : Nat) (s t : M × List Ix),
      n ≤ m →
      (game mm draws k maze seen reads).1[n]? = some s →
      (game mm draws k maze seen reads).1[m]? = some t →
      ∀ x ∈ s.2, x ∈ t.2 := by
  induction reads with
  | nil =>
    intro k maze seen n m s t hnm hs ht x hx
    cases hd : draws k with
    | false =>
      rw [game_drawFail mm draws k maze seen [] hd] at hs
      simp at hs
    | true =>
      cases hdone : mm.is_done maze with
      | false =>
        rw [game_nil mm draws k maze seen hd hdone] at hs ht
        cases n with
        | zero =>
          cases m with
          | zero =>
            simp only [List.getElem?_cons_zero, Option.some.injEq] at hs ht
            rw [← hs] at hx; rw [← ht]
            exact hx
          | succ m2 => simp at ht
        | succ n2 => simp at hs
      | true =>
        rw [game_win mm draws k maze seen [] hd hdone] at hs ht
        cases n with
        | zero =>
          cases m with
          | zero =>
            simp only [List.getElem?_cons_zero, Option.some.injEq] at hs ht
            rw [← hs] at hx; rw [← ht]
            exact hx
          | succ m2 => simp at ht
        | succ n2 => simp at hs
  | cons r rest ih =>
    intro k maze seen n m s t hnm hs ht x hx
    cases hd : draws k with
    | false =>
      rw [game_drawFail mm draws k maze seen _ hd] at hs
      simp at hs
    | true =>
      cases hdone : mm.is_done maze with
      | true =>
        rw [game_win mm draws k maze seen _ hd hdone] at hs ht
        cases n with
        | zero =>
          cases m with
          | zero =>
            simp only [List.getElem?_cons_zero, Option.some.injEq] at hs ht
            rw [← hs] at hx; rw [← ht]
            exact hx
          | succ m2 => simp at ht
        | succ n2 => simp at hs
      | false =>
        cases r with
        | error u =>
          rw [game_readErr mm draws k maze seen u rest hd hdone] at hs ht
          cases n with
          | zero =>
            cases m with
            | zero =>
              simp only [List.getElem?_cons_zero, Option.some.injEq] at hs ht
              rw [← hs] at hx; rw [← ht]
              exact hx
            | succ m2 => simp at ht
          | succ n2 => simp at hs
        | ok e =>
          by_cases he : e = MazeEvent.quit
          · subst he
            rw [game_quitCmd mm draws k maze seen rest hd hdone] at hs ht
            cases n with
            | zero =>
              cases m with
              | zero =>
                simp only [List.getElem?_cons_zero, Option.some.injEq] at hs ht
                rw [← hs] at hx; rw [← ht]
                exact hx
              | succ m2 => simp at ht
            | succ n2 => simp at hs
          · rw [game_cont mm draws k maze seen e rest hd hdone he] at hs ht
            cases n with
            | zero =>
              simp only [List.getElem?_cons_zero, Option.some.injEq] at hs
              cases m with
              | zero =>
                simp only [List.getElem?_cons_zero, Option.some.injEq] at ht
                rw [← hs] at hx; rw [← ht]
                exact hx
              | succ m2 =>
                simp only [List.getElem?_cons_succ] at ht
                have htm : t ∈ (game mm draws (k + 1) (stepEvent mm e maze)
                    (insertIx (mm.current_ix maze) seen) rest).1 :=
                  List.getElem?_mem ht
                rw [← hs] at hx
                exact game_seen_subset mm draws rest _ _ _ x hx t htm
            | succ n2 =>
              cases m with
              | zero => omega
              | succ m2 =>
                simp only [List.getElem?_cons_succ] at hs ht
                exact ih _ _ _ n2 m2 s t (by omega) hs ht x hx

/-- C6: the visited set grows monotonically along a session: whenever a
snapshot at turn `n` precedes a snapshot at turn `m` in the trace of the
loop, every index in the earlier visited set is still in the later one —
is_seen never transitions from true to false. -/
theorem game_seen_monotone {M Ix Room : Type} [DecidableEq Ix]
    (mm : MazeModel M Ix Room) (draws : Nat → Bool) (k : Nat) (maze : M)
    (seen : List Ix) (reads : List (Except Unit MazeEvent)) (n m : Nat)
    (s t : M × List Ix) (hnm : n ≤ m)
    (hs : (game mm draws k maze seen reads).1[n]? = some s)
    (ht : (game mm draws k maze seen reads).1[m]? = some t) :
    ∀ x ∈ s.2, x ∈ t.2 :=
  game_seen_mono_idx mm draws reads k maze seen n m s t hnm hs ht

/-- Witness for C6: in the concrete session, the start cell seen at the
first render is still seen at the second render. -/
theorem game_seen_monotone_witness :
    exIx0 ∈ [exIx1, exIx0] :=
  game_seen_monotone exModel exDraws 0 0 [] [Except.ok MazeEvent.moveE]
    0 1 (0, [exIx0]) (1, [exIx1, exIx0]) (by omega) (by rfl) (by rfl)
    exIx0 (by decide)

/-- C7: a decoded command outside the four movements and quit is
ignored: dispatching it leaves the maze untouched, and the loop
continues into the next iteration with the same maze state and the same
visited set it rendered this turn. -/
theorem game_other_ignored {M Ix Room : Type} [DecidableEq Ix]
    (mm : MazeModel M Ix Room) (draws : Nat → Bool) (k : Nat) (maze : M)
    (seen : List Ix) (rest : List (Except Unit MazeEvent))
    (hd : draws k = true) (hdone : mm.is_done maze = false) :
    stepEvent mm MazeEvent.other maze = maze
    ∧ game mm draws k maze seen (Except.ok MazeEvent.other :: rest) =
      ((maze, insertIx (mm.current_ix maze) seen)
          :: (game mm draws (k + 1) maze
              (insertIx (mm.current_ix maze) seen) rest).1,
        (game mm draws (k + 1) maze
          (insertIx (mm.current_ix maze) seen) rest).2) := by
  refine ⟨rfl, ?_⟩
  rw [game_cont mm draws k maze seen MazeEvent.other rest hd hdone
    (by decide)]
  rfl

/-- Witness for C7: on the concrete maze, an unrecognized command leaves
the loop in the same maze state. -/
theorem game_other_ignored_witness :
    game exModel exDraws 0 0 [] [Except.ok MazeEvent.other] =
      ((0, insertIx (exModel.current_ix 0) [])
          :: (game exModel exDraws 1 0
              (insertIx (exModel.current_ix 0) []) []).1,
        (game exModel exDraws 1 0
          (insertIx (exModel.current_ix 0) []) []).2) :=
  (game_other_ignored exModel exDraws 0 0 [] [] rfl rfl).2

/-- C5: at every render the current position has already been inserted
into the visited set (the loop inserts before drawing and before the win
check), so the current cell of every rendered snapshot is seen and its
full room geometry is part of that render — including the very first
render and the degenerate start-equals-goal session. -/
theorem game_current_seen_at_render {nR nC : Nat} {M Room : Type}
    (mm : MazeModel M (BoundedIx2 nR nC) Room) (draws : Nat → Bool) (k : Nat)
    (maze : M) (seen : List (BoundedIx2 nR nC))
    (reads : List (Except Unit MazeEvent)) (snap : M × List (BoundedIx2 nR nC))
    (h : snap ∈ (game mm draws k maze seen reads).1) :
    mm.current_ix snap.1 ∈ snap.2
    ∧ DrawCmd.room (mm.current_ix snap.1)
        (mm.rooms snap.1 (mm.current_ix snap.1)) ∈ render mm snap.1 snap.2 := by
  have h1 := game_snap_current_mem mm draws reads k maze seen snap h
  exact ⟨h1, room_mem_render mm snap.1 snap.2 _ h1⟩

/-- Witness for C5: the very first render of the concrete session has
the start cell in the visited set and draws its room geometry. -/
theorem game_current_seen_at_render_witness :
    exModel.current_ix 0 ∈ [exIx0]
    ∧ DrawCmd.room (exModel.current_ix 0)
        (exModel.rooms 0 (exModel.current_ix 0)) ∈ render exModel 0 [exIx0] :=
  game_current_seen_at_render exModel exDraws 0 0 []
    [Except.ok MazeEvent.moveE] (0, [exIx0]) (by decide)

section GameOccupied

variable {M Ix Room : Type} [DecidableEq Ix]
variable (mm : MazeModel M Ix Room) (draws : Nat → Bool)

/-- Every index of any rendered visited set either was in the initial
visited set (covered by the `past` positions) or was the current
position at some render up to that point. -/
lemma game_seen_from_past (reads : List (Except Unit MazeEvent)) :
    ∀ (k : Nat) (maze : M) (seen past : List Ix),
      (∀ x ∈ seen, x ∈ past) →
      ∀ (n : Nat) (snap : M × List Ix),
        (game mm draws k maze seen reads).1[n]? = some snap →
        ∀ ix ∈ snap.2,
          ix ∈ past ++ ((game mm draws k maze seen reads).1.take (n + 1)).map
            (fun s => mm.current_ix s.1) := by
  induction reads with
  | nil =>
    intro k maze seen past hpast n snap hsnap ix hix
    cases hd : draws k with
    | false =>
      rw [game_drawFail mm draws k maze seen [] hd] at hsnap
      simp at hsnap
    | true =>
      cases hdone : mm.is_done maze with
      | false =>
        rw [game_nil mm draws k maze seen hd hdone] at hsnap ⊢
        cases n with
        | zero =>
          simp only [List.getElem?_cons_zero, Option.some.injEq] at hsnap
          rw [← hsnap] at hix
          rcases (mem_insertIx_iff ix _ seen).mp hix with rfl | hmem
          · exact List.mem_append_right _ (by simp)
          · exact List.mem_append_left _ (hpast _ hmem)
        | succ n2 => simp at hsnap
      | true =>
        rw [game_win mm draws k maze seen [] hd hdone] at hsnap ⊢
        cases n with
        | zero =>
          simp only [List.getElem?_cons_zero, Option.some.injEq] at hsnap
          rw [← hsnap] at hix
          rcases (mem_insertIx_iff ix _ seen).mp hix with rfl | hmem
          · exact List.mem_append_right _ (by simp)
          · exact List.mem_append_left _ (hpast _ hmem)
        | succ n2 => simp at hsnap
  | cons r rest ih =>
    intro k maze seen past hpast n snap hsnap ix hix
    cases hd : draws k with
    | false =>
      rw [game_drawFail mm draws k maze seen _ hd] at hsnap
      simp at hsnap
    | true =>
      cases hdone : mm.is_done maze with
      | true =>
        rw [game_win mm draws k maze seen _ hd hdone] at hsnap ⊢
        cases n with
        | zero =>
          simp only [List.getElem?_cons_zero, Option.some.injEq] at hsnap
          rw [← hsnap] at hix
          rcases (mem_insertIx_iff ix _ seen).mp hix with rfl | hmem
          · exact List.mem_append_right _ (by simp)
          · exact List.mem_append_left _ (hpast _ hmem)
        | succ n2 => simp at hsnap
      | false =>
        cases r with
        | error u =>
          rw [game_readErr mm draws k maze seen u rest hd hdone] at hsnap ⊢
          cases n with
          | zero =>
            simp only [List.getElem?_cons_zero, Option.some.injEq] at hsnap
            rw [← hsnap] at hix
            rcases (mem_insertIx_iff ix _ seen).mp hix with rfl | hmem
            · exact List.mem_append_right _ (by simp)
            · exact List.mem_append_left _ (hpast _ hmem)
          | succ n2 => simp at hsnap
        | ok e =>
          by_cases he : e = MazeEvent.quit
          · subst he
            rw [game_quitCmd mm draws k maze seen rest hd hdone] at hsnap ⊢
            cases n with
            | zero =>
              simp only [List.getElem?_cons_zero, Option.some.injEq] at hsnap
              rw [← hsnap] at hix
              rcases (mem_insertIx_iff ix _ seen).mp hix with rfl | hmem
              · exact List.mem_append_right _ (by simp)
              · exact List.mem_append_left _ (hpast _ hmem)
            | succ n2 => simp at hsnap
          · rw [game_cont mm draws k maze seen e rest hd hdone he] at hsnap ⊢
            cases n with
            | zero =>
              simp only [List.getElem?_cons_zero, Option.some.injEq] at hsnap
              rw [← hsnap] at hix
              rcases (mem_insertIx_iff ix _ seen).mp hix with rfl | hmem
              · exact List.mem_append_right _ (by simp)
              · exact List.mem_append_left _ (hpast _ hmem)
            | succ n2 =>
              simp only [List.getElem?_cons_succ] at hsnap
              have hpast2 : ∀ x ∈ insertIx (mm.current_ix maze) seen,
                  x ∈ past ++ [mm.current_ix maze] := by
                intro x hx
                rcases (mem_insertIx_iff x _ seen).mp hx with rfl | hmem
                · exact List.mem_append_right _ (by simp)
                · exact List.mem_append_left _ (hpast _ hmem)
              have hrec := ih (k + 1) (stepEvent mm e maze)
                (insertIx (mm.current_ix maze) seen)
                (past ++ [mm.current_ix maze]) hpast2 n2 snap hsnap ix hix
              rw [List.append_assoc, List.singleton_append] at hrec
              simpa [List.take_succ_cons] using hrec

/-- C10: starting from the empty visited set, every index in the
visited set of any rendered snapshot was the current position at some
render up to that snapshot — the visited set is always a subset of the
positions actually occupied so far in the session. -/
theorem game_seen_subset_occupied {M Ix Room : Type} [DecidableEq Ix]
    (mm : MazeModel M Ix Room) (draws : Nat → Bool) (k : Nat) (maze : M)
    (reads : List (Except Unit MazeEvent)) (n : Nat) (snap : M × List Ix)
    (hsnap : (game mm draws k maze [] reads).1[n]? = some snap) :
    ∀ ix ∈ snap.2,
      ix ∈ ((game mm draws k maze [] reads).1.take (n + 1)).map
        (fun s => mm.current_ix s.1) := by
  intro ix hix
  have h := game_seen_from_past mm draws reads k maze [] [] (by simp)
    n snap hsnap ix hix
  simpa using h

/-- Witness for C10: in the concrete session the goal index, seen at the
second render, is among the positions occupied up to that render. -/
theorem game_seen_subset_occupied_witness :
    exIx1 ∈ (((game exModel exDraws 0 0 []
        [Except.ok MazeEvent.moveE]).1.take 2).map
      (fun s => exModel.current_ix s.1)) :=
  game_seen_subset_occupied exModel exDraws 0 0 [Except.ok MazeEvent.moveE]
    1 (1, [exIx1, exIx0]) (by rfl) exIx1 (by decide)

end GameOccupied

lemma mazeAtR_take_succ_cons (maze : M) (r : Except Unit MazeEvent)
    (rest : List (Except Unit MazeEvent)) (m : Nat) :
    mazeAtR mm maze ((r :: rest).take (m + 1)) =
      mazeAtR mm (stepRead mm maze r) (rest.take m) :=
  rfl

lemma activeUpTo_zero (k : Nat) (maze : M)
    (reads : List (Except Unit MazeEvent)) :
    activeUpTo mm draws k maze reads 0 :=
  fun m hm => absurd hm (Nat.not_lt_zero m)

lemma activeUpTo_nil {k : Nat} {maze : M} {n : Nat}
    (h : activeUpTo mm draws k maze [] n) : n = 0 := by
  by_contra hn
  have h0 := h 0 (by omega)
  simp [okNonQuitB] at h0

lemma okNonQuitB_some_iff (r : Except Unit MazeEvent) :
    okNonQuitB (some r) = true ↔
      ∃ e, r = Except.ok e ∧ e ≠ MazeEvent.quit := by
  cases r <;> simp [okNonQuitB]

lemma activeUpTo_succ_cons (k : Nat) (maze : M) (r : Except Unit MazeEvent)
    (rest : List (Except Unit MazeEvent)) (n : Nat) :
    activeUpTo mm draws k maze (r :: rest) (n + 1) ↔
      (draws k = true ∧ mm.is_done maze = false ∧ okNonQuitB (some r) = true)
      ∧ activeUpTo mm draws (k + 1) (stepRead mm maze r) rest n := by
  constructor
  · intro h
    refine ⟨?_, ?_⟩
    · have h0 := h 0 (by omega)
      simpa [mazeAtR] using h0
    · intro m hm
      have hm1 := h (m + 1) (by omega)
      refine ⟨?_, ?_, ?_⟩
      · have e1 : k + 1 + m = k + (m + 1) := by omega
        rw [e1]
        exact hm1.1
      · have h2 := hm1.2.1
        rw [mazeAtR_take_succ_cons] at h2
        exact h2
      · have h3 := hm1.2.2
        simpa using h3
  · rintro ⟨⟨hd, hdone, hr⟩, hrest⟩ m hm
    cases m with
    | zero =>
      exact ⟨by simpa using hd, by simpa [mazeAtR] using hdone,
        by simpa using hr⟩
    | succ m2 =>
      have hm2 := hrest m2 (by omega)
      refine ⟨?_, ?_, ?_⟩
      · have e1 : k + (m2 + 1) = k + 1 + m2 := by omega
        rw [e1]
        exact hm2.1
      · rw [mazeAtR_take_succ_cons]
        exact hm2.2.1
      · simpa using hm2.2.2

lemma game_cont_snd (k : Nat) (maze : M) (seen : List Ix) (e : MazeEvent)
    (rest : List (Except Unit MazeEvent)) (h : draws k = true)
    (hdone : mm.is_done maze = false) (he : e ≠ MazeEvent.quit) :
    (game mm draws k maze seen (Except.ok e :: rest)).2 =
      (game mm draws (k + 1) (stepEvent mm e maze)
        (insertIx (mm.current_ix maze) seen) rest).2 := by
  rw [game_cont mm draws k maze seen e rest h hdone he]

lemma game_cont_fst (k : Nat) (maze : M) (seen : List Ix) (e : MazeEvent)
    (rest : List (Except Unit MazeEvent)) (h : draws k = true)
    (hdone : mm.is_done maze = false) (he : e ≠ MazeEvent.quit) :
    (game mm draws k maze seen (Except.ok e :: rest)).1 =
      (maze, insertIx (mm.current_ix maze) seen)
        :: (game mm draws (k + 1) (stepEvent mm e maze)
            (insertIx (mm.current_ix maze) seen) rest).1 := by
  rw [game_cont mm draws k maze seen e rest h hdone he]

/-- The loop returns the win outcome exactly when some fully active
prefix of the session reaches a successful draw whose win check
succeeds. -/
lemma game_win_iff (reads : List (Except Unit MazeEvent)) :
    ∀ (k : Nat) (maze : M) (seen : List Ix),
      (game mm draws k maze seen reads).2 = some (Except.ok Outcome.win) ↔
        ∃ n, activeUpTo mm draws k maze reads n ∧ draws (k + n) = true
          ∧ mm.is_done (mazeAtR mm maze (reads.take n)) = true := by
  induction reads with
  | nil =>
    intro k maze seen
    constructor
    · intro h
      cases hd : draws k with
      | false =>
        rw [game_drawFail mm draws k maze seen [] hd] at h
        simp at h
      | true =>
        cases hdone : mm.is_done maze with
        | false =>
          rw [game_nil mm draws k maze seen hd hdone] at h
          simp at h
        | true =>
          exact ⟨0, activeUpTo_zero mm draws k maze [], by simpa using hd,
            by simpa [mazeAtR] using hdone⟩
    · rintro ⟨n, ha, hdk, hdo⟩
      have hn0 : n = 0 := activeUpTo_nil mm draws ha
      subst hn0
      rw [game_win mm draws k maze seen [] (by simpa using hdk)
        (by simpa [mazeAtR] using hdo)]
  | cons r rest ih =>
    intro k maze seen
    cases hd : draws k with
    | false =>
      rw [game_drawFail mm draws k maze seen _ hd]
      constructor
      · intro h
        simp at h
      · rintro ⟨n, ha, hdk, hdo⟩
        cases n with
        | zero =>
          rw [Nat.add_zero, hd] at hdk
          exact absurd hdk (by simp)
        | succ n2 =>
          have hh := ((activeUpTo_succ_cons mm draws k maze r rest n2).mp ha).1.1
          rw [hd] at hh
          exact absurd hh (by simp)
    | true =>
      cases hdone : mm.is_done maze with
      | true =>
        rw [game_win mm draws k maze seen _ hd hdone]
        constructor
        · intro _
          exact ⟨0, activeUpTo_zero mm draws k maze _, by simpa using hd,
            by simpa [mazeAtR] using hdone⟩
        · intro _
          rfl
      | false =>
        cases r with
        | error u =>
          rw [game_readErr mm draws k maze seen u rest hd hdone]
          constructor
          · intro h
            simp at h
          · rintro ⟨n, ha, hdk, hdo⟩
            cases n with
            | zero =>
              simp only [List.take_zero, mazeAtR] at hdo
              rw [hdone] at hdo
              exact absurd hdo (by simp)
            | succ n2 =>
              have hh :=
                ((activeUpTo_succ_cons mm draws k maze _ rest n2).mp ha).1.2.2
              simp [okNonQuitB] at hh
        | ok e =>
          by_cases he : e = MazeEvent.quit
          · subst he
            rw [game_quitCmd mm draws k maze seen rest hd hdone]
            constructor
            · intro h
              simp at h
            · rintro ⟨n, ha, hdk, hdo⟩
              cases n with
              | zero =>
                simp only [List.take_zero, mazeAtR] at hdo
                rw [hdone] at hdo
                exact absurd hdo (by simp)
              | succ n2 =>
                have hh :=
                  ((activeUpTo_succ_cons mm draws k maze _ rest n2).mp ha).1.2.2
                simp [okNonQuitB] at hh
          · rw [game_cont_snd mm draws k maze seen e rest hd hdone he,
              ih (k + 1) (stepEvent mm e maze)
                (insertIx (mm.current_ix maze) seen)]
            constructor
            · rintro ⟨n, ha, hdk, hdo⟩
              refine ⟨n + 1, ?_, ?_, ?_⟩
              · refine (activeUpTo_succ_cons mm draws k maze _ rest n).mpr
                  ⟨⟨hd, hdone, ?_⟩, ?_⟩
                · simp [okNonQuitB, he]
                · simpa [stepRead] using ha
              · have e1 : k + (n + 1) = k + 1 + n := by omega
                rw [e1]
                exact hdk
              · rw [mazeAtR_take_succ_cons]
                simpa [stepRead] using hdo
            · rintro ⟨n, ha, hdk, hdo⟩
              cases n with
              | zero =>
                simp only [List.take_zero, mazeAtR] at hdo
                rw [hdone] at hdo
                exact absurd hdo (by simp)
              | succ n2 =>
                have hh := (activeUpTo_succ_cons mm draws k maze _ rest n2).mp ha
                refine ⟨n2, by simpa [stepRead] using hh.2, ?_, ?_⟩
                · have e1 : k + (n2 + 1) = k + 1 + n2 := by omega
                  rw [e1] at hdk
                  exact hdk
                · rw [mazeAtR_take_succ_cons] at hdo
                  simpa [stepRead] using hdo

/-- The loop returns the quit outcome exactly when some fully active
prefix of the session reaches a successful draw whose win check fails
and whose read decodes to a quit command. -/
lemma game_quit_iff (reads : List (Except Unit MazeEvent)) :
    ∀ (k : Nat) (maze : M) (seen : List Ix),
      (game mm draws k maze seen reads).2 = some (Except.ok Outcome.quit) ↔
        ∃ n, activeUpTo mm draws k maze reads n ∧ draws (k + n) = true
          ∧ mm.is_done (mazeAtR mm maze (reads.take n)) = false
          ∧ reads[n]? = some (Except.ok MazeEvent.quit) := by
  induction reads with
  | nil =>
    intro k maze seen
    constructor
    · intro h
      cases hd : draws k with
      | false =>
        rw [game_drawFail mm draws k maze seen [] hd] at h
        simp at h
      | true =>
        cases hdone : mm.is_done maze with
        | false =>
          rw [game_nil mm draws k maze seen hd hdone] at h
          simp at h
        | true =>
          rw [game_win mm draws k maze seen [] hd hdone] at h
          simp at h
    · rintro ⟨n, ha, hdk, hdo, hq⟩
      simp at hq
  | cons r rest ih =>
    intro k maze seen
    cases hd : draws k with
    | false =>
      rw [game_drawFail mm draws k maze seen _ hd]
      constructor
      · intro h
        simp at h
      · rintro ⟨n, ha, hdk, hdo, hq⟩
        cases n with
        | zero =>
          rw [Nat.add_zero, hd] at hdk
          exact absurd hdk (by simp)
        | succ n2 =>
          have hh := ((activeUpTo_succ_cons mm draws k maze r rest n2).mp ha).1.1
          rw [hd] at hh
          exact absurd hh (by simp)
    | true =>
      cases hdone : mm.is_done maze with
      | true =>
        rw [game_win mm draws k maze seen _ hd hdone]
        constructor
        · intro h
          simp at h
        · rintro ⟨n, ha, hdk, hdo, hq⟩
          cases n with
          | zero =>
            simp only [List.take_zero, mazeAtR] at hdo
            rw [hdone] at hdo
            exact absurd hdo (by simp)
          | succ n2 =>
            have hh :=
              ((activeUpTo_succ_cons mm draws k maze r rest n2).mp ha).1.2.1
            rw [hdone] at hh
            exact absurd hh (by simp)
      | false =>
        cases r with
        | error u =>
          rw [game_readErr mm draws k maze seen u rest hd hdone]
          constructor
          · intro h
            simp at h
          · rintro ⟨n, ha, hdk, hdo, hq⟩
            cases n with
            | zero =>
              simp at hq
            | succ n2 =>
              have hh :=
                ((activeUpTo_succ_cons mm draws k maze _ rest n2).mp ha).1.2.2
              simp [okNonQuitB] at hh
        | ok e =>
          by_cases he : e = MazeEvent.quit
          · subst he
            rw [game_quitCmd mm draws k maze seen rest hd hdone]
            constructor
            · intro _
              exact ⟨0, activeUpTo_zero mm draws k maze _, by simpa using hd,
                by simpa [mazeAtR] using hdone, by simp⟩
            · intro _
              rfl
          · rw [game_cont_snd mm draws k maze seen e rest hd hdone he,
              ih (k + 1) (stepEvent mm e maze)
                (insertIx (mm.current_ix maze) seen)]
            constructor
            · rintro ⟨n, ha, hdk, hdo, hq⟩
              refine ⟨n + 1, ?_, ?_, ?_, ?_⟩
              · refine (activeUpTo_succ_cons mm draws k maze _ rest n).mpr
                  ⟨⟨hd, hdone, ?_⟩, ?_⟩
                · simp [okNonQuitB, he]
                · simpa [stepRead] using ha
              · have e1 : k + (n + 1) = k + 1 + n := by omega
                rw [e1]
                exact hdk
              · rw [mazeAtR_take_succ_cons]
                simpa [stepRead] using hdo
              · simpa using hq
            · rintro ⟨n, ha, hdk, hdo, hq⟩
              cases n with
              | zero =>
                simp only [List.getElem?_cons_zero, Option.some.injEq] at hq
                injection hq with hq2
                exact absurd hq2 he
              | succ n2 =>
                have hh := (activeUpTo_succ_cons mm draws k maze _ rest n2).mp ha
                refine ⟨n2, by simpa [stepRead] using hh.2, ?_, ?_, ?_⟩
                · have e1 : k + (n2 + 1) = k + 1 + n2 := by omega
                  rw [e1] at hdk
                  exact hdk
                · rw [mazeAtR_take_succ_cons] at hdo
                  simpa [stepRead] using hdo
                · simpa using hq

/-- A draw failure at the first still-active iteration aborts the loop
with the propagated error and no further iterations. -/
lemma game_drawFail_prop (reads : List (Except Unit MazeEvent)) :
    ∀ (k : Nat) (maze : M) (seen : List Ix) (n : Nat),
      activeUpTo mm draws k maze reads n → draws (k + n) = false →
      (game mm draws k maze seen reads).2 = some (Except.error ())
      ∧ (game mm draws k maze seen reads).1.length = n := by
  induction reads with
  | nil =>
    intro k maze seen n ha hdf
    have hn0 : n = 0 := activeUpTo_nil mm draws ha
    subst hn0
    rw [Nat.add_zero] at hdf
    rw [game_drawFail mm draws k maze seen [] hdf]
    exact ⟨rfl, rfl⟩
  | cons r rest ih =>
    intro k maze seen n ha hdf
    cases n with
    | zero =>
      rw [Nat.add_zero] at hdf
      rw [game_drawFail mm draws k maze seen _ hdf]
      exact ⟨rfl, rfl⟩
    | succ n2 =>
      obtain ⟨⟨hd, hdone, hok⟩, hrest⟩ :=
        (activeUpTo_succ_cons mm draws k maze r rest n2).mp ha
      obtain ⟨e, rfl, he⟩ := (okNonQuitB_some_iff r).mp hok
      have e1 : k + (n2 + 1) = k + 1 + n2 := by omega
      rw [e1] at hdf
      have hr := ih (k + 1) (stepEvent mm e maze)
        (insertIx (mm.current_ix maze) seen) n2
        (by simpa [stepRead] using hrest) hdf
      rw [game_cont_snd mm draws k maze seen e rest hd hdone he,
        game_cont_fst mm draws k maze seen e rest hd hdone he]
      exact ⟨hr.1, by simp [hr.2]⟩

/-- A read failure at the first still-active iteration aborts the loop
with the propagated error right after that iteration's render. -/
lemma game_readFail_prop (reads : List (Except Unit MazeEvent)) :
    ∀ (k : Nat) (maze : M) (seen : List Ix) (n : Nat),
      activeUpTo mm draws k maze reads n → draws (k + n) = true →
      mm.is_done (mazeAtR mm maze (reads.take n)) = false →
      reads[n]? = some (Except.error ()) →
      (game mm draws k maze seen reads).2 = some (Except.error ())
      ∧ (game mm draws k maze seen reads).1.length = n + 1 := by
  induction reads with
  | nil =>
    intro k maze seen n ha hdk hdo hr
    simp at hr
  | cons r rest ih =>
    intro k maze seen n ha hdk hdo hr
    cases n with
    | zero =>
      simp only [List.getElem?_cons_zero, Option.some.injEq] at hr
      subst hr
      rw [Nat.add_zero] at hdk
      simp only [List.take_zero, mazeAtR] at hdo
      rw [game_readErr mm draws k maze seen () rest hdk hdo]
      exact ⟨rfl, rfl⟩
    | succ n2 =>
      obtain ⟨⟨hd, hdone, hok⟩, hrest⟩ :=
        (activeUpTo_succ_cons mm draws k maze r rest n2).mp ha
      obtain ⟨e, rfl, he⟩ := (okNonQuitB_some_iff r).mp hok
      have e1 : k + (n2 + 1) = k + 1 + n2 := by omega
      rw [e1] at hdk
      rw [mazeAtR_take_succ_cons] at hdo
      simp only [List.getElem?_cons_succ] at hr
      have hrr := ih (k + 1) (stepEvent mm e maze)
        (insertIx (mm.current_ix maze) seen) n2
        (by simpa [stepRead] using hrest) hdk
        (by simpa [stepRead] using hdo) hr
      rw [game_cont_snd mm draws k maze seen e rest hd hdone he,
        game_cont_fst mm draws k maze seen e rest hd hdone he]
      exact ⟨hrr.1, by simp [hrr.2]⟩

end GameLoop

/-- C2: the loop returns the win outcome exactly when the completion
predicate holds at some turn's win check (each check happening after the
position updates of the preceding turns, on a turn whose draw succeeded
and which only still-active turns precede), returns the quit outcome
exactly when a quit command is read on a still-active turn whose win
check failed, and every successful outcome is one of these two. -/
theorem game_outcome_characterization {M Ix Room : Type} [DecidableEq Ix]
    (mm : MazeModel M Ix Room) (draws : Nat → Bool) (k : Nat) (maze : M)
    (seen : List Ix) (reads : List (Except Unit MazeEvent)) :
    ((game mm draws k maze seen reads).2 = some (Except.ok Outcome.win) ↔
      ∃ n, activeUpTo mm draws k maze reads n ∧ draws (k + n) = true
        ∧ mm.is_done (mazeAtR mm maze (reads.take n)) = true)
    ∧ ((game mm draws k maze seen reads).2 = some (Except.ok Outcome.quit) ↔
      ∃ n, activeUpTo mm draws k maze reads n ∧ draws (k + n) = true
        ∧ mm.is_done (mazeAtR mm maze (reads.take n)) = false
        ∧ reads[n]? = some (Except.ok MazeEvent.quit))
    ∧ (∀ o, (game mm draws k maze seen reads).2 = some (Except.ok o) →
        o = Outcome.win ∨ o = Outcome.quit) := by
  refine ⟨game_win_iff mm draws reads k maze seen,
    game_quit_iff mm draws reads k maze seen, ?_⟩
  intro o _
  cases o
  · exact Or.inl rfl
  · exact Or.inr rfl

/-- Witness for C2: the concrete session that moves east once wins, via
the characterization at the second win check. -/
theorem game_outcome_characterization_witness :
    (game exModel exDraws 0 0 [] [Except.ok MazeEvent.moveE]).2 =
      some (Except.ok Outcome.win) :=
  (game_outcome_characterization exModel exDraws 0 0 []
      [Except.ok MazeEvent.moveE]).1.mpr
    ⟨1, fun m hm => by
        have hm0 : m = 0 := by omega
        subst hm0
        exact ⟨rfl, rfl, rfl⟩,
      rfl, rfl⟩

/-- C8: if the session is still active after `n` turns, then a draw
failure at turn `n` ends the loop at once with the propagated error and
exactly `n` rendered snapshots, and a read failure at turn `n` (after a
successful draw and a failed win check) ends the loop at once with the
propagated error and exactly `n + 1` rendered snapshots; in either case
no win or quit outcome is produced and nothing is retried. -/
theorem game_error_propagation {M Ix Room : Type} [DecidableEq Ix]
    (mm : MazeModel M Ix Room) (draws : Nat → Bool) (k : Nat) (maze : M)
    (seen : List Ix) (reads : List (Except Unit MazeEvent)) (n : Nat) :
    (activeUpTo mm draws k maze reads n → draws (k + n) = false →
      (game mm draws k maze seen reads).2 = some (Except.error ())
      ∧ (game mm draws k maze seen reads).1.length = n)
    ∧ (activeUpTo mm draws k maze reads n → draws (k + n) = true →
      mm.is_done (mazeAtR mm maze (reads.take n)) = false →
      reads[n]? = some (Except.error ()) →
      (game mm draws k maze seen reads).2 = some (Except.error ())
      ∧ (game mm draws k maze seen reads).1.length = n + 1) :=
  ⟨fun ha hdf => game_drawFail_prop mm draws reads k maze seen n ha hdf,
    fun ha hdk hdo hr =>
      game_readFail_prop mm draws reads k maze seen n ha hdk hdo hr⟩

/-- Witness for C8: a failed read on the very first turn of the concrete
session propagates the error after exactly one render. -/
theorem game_error_propagation_witness :
    (game exModel exDraws 0 0 [] [Except.error ()]).2 =
      some (Except.error ())
    ∧ (game exModel exDraws 0 0 [] [Except.error ()]).1.length = 0 + 1 :=
  (game_error_propagation exModel exDraws 0 0 [] [Except.error ()] 0).2
    (fun m hm => absurd hm (Nat.not_lt_zero m)) rfl rfl rfl

end Samazing
